import Mathlib

/-!
A shallow embedding of the MicrowaveVM interpreter (`src/main.py`): a
two-register Minsky-style virtual machine with a two-pass assembler/loader.

Python dictionaries are modelled as insertion-ordered association lists,
Python exceptions as an `Option String` error component threaded through
each operation (the returned machine state is the state at the moment the
exception is raised, matching the in-place mutation of the Python object),
and `print` output as an explicit event list carried in the machine state.
-/

namespace MicrowaveVM

/-- `Instr` mirrors the Python dataclass `Instr(op, args)`. -/
structure Instr where
  op : String
  args : List String
deriving DecidableEq, Repr

/-- The machine state: the fields of the Python `MicrowaveVM` object, plus
an `output` trace recording the strings the Python code would `print`. -/
structure VM where
  registers : List (String × Int)
  program : List Instr
  labels : List (String × Nat)
  pc : Nat
  halted : Bool
  steps : Nat
  output : List String
deriving DecidableEq, Repr

/-- Association-list lookup: Python `d[k]` / `k in d` on a dict. -/
def alookup {α : Type} (m : List (String × α)) (k : String) : Option α :=
  match m with
  | [] => none
  | (k', v) :: rest => if k' = k then some v else alookup rest k

/-- Python `d.get(k, 0)` on the registers dict. -/
def dget (m : List (String × Int)) (k : String) : Int :=
  (alookup m k).getD 0

/-- Python `d[k] = v` on a dict: update in place if the key is present
(keeping insertion order), otherwise append. -/
def aset {α : Type} (m : List (String × α)) (k : String) (v : α) : List (String × α) :=
  match m with
  | [] => [(k, v)]
  | (k', v') :: rest => if k' = k then (k, v) :: rest else (k', v') :: aset rest k v

/-- `MicrowaveVM.__init__`: TIME and POWER registers zeroed, empty program. -/
def initVM : VM :=
  { registers := [("TIME", 0), ("POWER", 0)], program := [], labels := [],
    pc := 0, halted := false, steps := 0, output := [] }

/-- The whitespace characters stripped by Python `str.strip()` (ASCII range). -/
def isPySpace (c : Char) : Bool :=
  c = ' ' || c = '\t' || c = '\n' || c = '\x0d' || c = '\x0b' || c = '\x0c'

/-- Python `str.strip()`. -/
def pyStrip (s : String) : String :=
  ⟨((s.data.dropWhile isPySpace).reverse.dropWhile isPySpace).reverse⟩

/-- Python `s.split(c, 1)[0]`: the text before the first occurrence of `c`
(the whole string when `c` does not occur). -/
def untilChar (c : Char) (s : String) : String :=
  ⟨s.data.takeWhile (fun x => !(x = c))⟩

/-- Python `str.splitlines()` restricted to the `\n`, `\r\n` and `\r`
line boundaries (the only ones the repository's sources use). -/
def splitlinesAux (acc : List Char) : List Char → List String
  | [] => if acc.isEmpty then [] else [⟨acc.reverse⟩]
  | '\x0d' :: '\n' :: rest => ⟨acc.reverse⟩ :: splitlinesAux [] rest
  | '\x0d' :: rest => ⟨acc.reverse⟩ :: splitlinesAux [] rest
  | '\n' :: rest => ⟨acc.reverse⟩ :: splitlinesAux [] rest
  | c :: rest => splitlinesAux (c :: acc) rest

def splitlines (s : String) : List String :=
  splitlinesAux [] s.data

/-- Line normalization from both loader passes:
`raw.split(';', 1)[0].split('#', 1)[0].strip()`. -/
def normalizeLine (raw : String) : String :=
  pyStrip (untilChar '#' (untilChar ';' raw))

/-- Python `line.endswith(':')`. -/
def endsColon (s : String) : Bool :=
  s.data.getLast? == some ':'

/-- Python `line[:-1]` (on the nonempty strings it is applied to). -/
def dropLastChar (s : String) : String :=
  ⟨s.data.dropLast⟩

/-- Split a character list on whitespace runs, discarding empty tokens:
the behaviour of Python `str.split()` with no separator. -/
def splitWSAux (acc : List Char) : List Char → List String
  | [] => if acc.isEmpty then [] else [⟨acc.reverse⟩]
  | c :: rest =>
    if isPySpace c then
      if acc.isEmpty then splitWSAux [] rest
      else ⟨acc.reverse⟩ :: splitWSAux [] rest
    else splitWSAux (c :: acc) rest

/-- Python `line.replace(',', ' ').split()`: commas become spaces, then
split on whitespace runs, discarding empty tokens. -/
def pyTokens (s : String) : List String :=
  splitWSAux [] (s.data.map (fun c => if c = ',' then ' ' else c))

/-- The digit-sequence part of Python `int(str)`: a nonempty run of decimal
digits in which single underscores may appear between two digits. -/
def pyDigits : List Char → Bool
  | [] => false
  | [c] => c.isDigit
  | c :: '_' :: rest => c.isDigit && pyDigits rest
  | c :: rest => c.isDigit && pyDigits rest

/-- Numeric value of a digit run, ignoring underscores. -/
def digitsVal (cs : List Char) : Int :=
  cs.foldl (fun a c => if c = '_' then a else a * 10 + (c.toNat - 48)) 0

/-- Python `int(str)` on signed decimal literals: surrounding whitespace is
stripped, an optional sign precedes the digits; `none` models the
`ValueError` raised on anything else. -/
def pyInt (s : String) : Option Int :=
  match (pyStrip s).data with
  | '+' :: rest => if pyDigits rest then some (digitsVal rest) else none
  | '-' :: rest => if pyDigits rest then some (-(digitsVal rest)) else none
  | ds => if pyDigits ds then some (digitsVal ds) else none

/-- Python `str.upper()` on the ASCII range (the repository's sources are
ASCII), as used on opcodes and register tokens. -/
def pyUpper (s : String) : String :=
  ⟨s.data.map Char.toUpper⟩

/-- The `regname` helper inside `step`: register-name canonicalization. -/
def regname (s : String) : String :=
  pyUpper s

/-- A register token is valid when its uppercasing is TIME or POWER. -/
def validReg (s : String) : Bool :=
  regname s = "TIME" || regname s = "POWER"

/-- Run a list of per-line actions that may fail, stopping at the first
failure and returning the state built so far together with the error:
this mirrors a Python `for` loop that mutates `self` and may `raise`. -/
def foldSteps {σ : Type} (f : σ → String → σ × Option String) (st : σ) :
    List String → σ × Option String
  | [] => (st, none)
  | l :: ls =>
    match f st l with
    | (st', none) => foldSteps f st' ls
    | (st', some e) => (st', some e)

/-- One line of the loader's first pass (label collection): the state is
the label table built so far and the running instruction-slot counter. -/
def pass1Step (st : List (String × Nat) × Nat) (raw : String) :
    (List (String × Nat) × Nat) × Option String :=
  let line := normalizeLine raw
  if line = "" then (st, none)
  else if endsColon line then
    let label := pyStrip (dropLastChar line)
    if label = "" then (st, some "Empty label definition.")
    else if (alookup st.1 label).isSome then (st, some ("Duplicate label: " ++ label))
    else ((st.1 ++ [(label, st.2)], st.2), none)
  else ((st.1, st.2 + 1), none)

/-- Opcode/arity/argument validation of the loader's second pass, applied to
the token list of one instruction line; on success it yields the stored
`Instr` (uppercased opcode, argument tokens as written). -/
def validateTokens (line : String) (tokens : List String) : Except String Instr :=
  match tokens with
  | [] => Except.error ("IndexError: " ++ line)
  | t0 :: args =>
    let op := pyUpper t0
    if op = "SET" then
      if !(args.length = 2) then Except.error ("SET expects 2 args: " ++ line)
      else if !(validReg (args.getD 0 "")) then
        Except.error ("Unknown register in SET: " ++ args.getD 0 "")
      else if (pyInt (args.getD 1 "")).isNone then
        Except.error ("SET value must be integer: " ++ args.getD 1 "")
      else Except.ok ⟨op, args⟩
    else if op = "INC" then
      if !(args.length = 1) || !(validReg (args.getD 0 "")) then
        Except.error ("INC expects register (TIME/POWER): " ++ line)
      else Except.ok ⟨op, args⟩
    else if op = "DECJZ" then
      if !(args.length = 2) || !(validReg (args.getD 0 "")) then
        Except.error ("DECJZ expects register and label: " ++ line)
      else Except.ok ⟨op, args⟩
    else if op = "GOTO" then
      if !(args.length = 1) then Except.error ("GOTO expects 1 label: " ++ line)
      else Except.ok ⟨op, args⟩
    else if op = "PRINT" then
      if !(args.length = 0) then Except.error ("PRINT takes no args: " ++ line)
      else Except.ok ⟨op, args⟩
    else if op = "HALT" then
      if !(args.length = 0) then Except.error ("HALT takes no args: " ++ line)
      else Except.ok ⟨op, args⟩
    else Except.error ("Unknown opcode: " ++ op)

/-- Parse and validate one (normalized, non-label) instruction line. -/
def parseInstr (line : String) : Except String Instr :=
  validateTokens line (pyTokens line)

/-- One line of the loader's second pass (instruction parsing): the state is
the instruction list built so far. -/
def pass2Step (prog : List Instr) (raw : String) : List Instr × Option String :=
  let line := normalizeLine raw
  if line = "" || endsColon line then (prog, none)
  else
    match parseInstr line with
    | Except.ok i => (prog ++ [i], none)
    | Except.error e => (prog, some e)

/-- `MicrowaveVM.load_program`: clear program, labels, pc, halted and steps,
then run the two passes over the source's lines.  The returned machine is
the object's state when the call returns or raises; the `Option String` is
the raised `ValueError`'s message, `none` on success. -/
def load_program (vm : VM) (source : String) : VM × Option String :=
  let vm0 : VM := { vm with program := [], labels := [], pc := 0, halted := false, steps := 0 }
  let lines := splitlines source
  match foldSteps pass1Step ([], 0) lines with
  | (st1, some e) => ({ vm0 with labels := st1.1 }, some e)
  | (st1, none) =>
    let vm1 : VM := { vm0 with labels := st1.1 }
    match foldSteps pass2Step [] lines with
    | (prog, some e) => ({ vm1 with program := prog }, some e)
    | (prog, none) => ({ vm1 with program := prog }, none)

/-- The dispatch body of `MicrowaveVM.step`, applied after the halted and
bounds checks and the step-counter increment.  Out-of-range argument
indexing models Python's `IndexError`. -/
def execInstr (vm : VM) (instr : Instr) : VM × Option String :=
  if instr.op = "SET" then
    match instr.args.get? 0, instr.args.get? 1 with
    | some a0, some a1 =>
      match pyInt a1 with
      | some v =>
        ({ vm with registers := aset vm.registers (regname a0) v, pc := vm.pc + 1 }, none)
      | none => (vm, some ("invalid literal for int: " ++ a1))
    | _, _ => (vm, some "IndexError")
  else if instr.op = "INC" then
    match instr.args.get? 0 with
    | some a0 =>
      let r := regname a0
      ({ vm with registers := aset vm.registers r (dget vm.registers r + 1),
                 pc := vm.pc + 1 }, none)
    | none => (vm, some "IndexError")
  else if instr.op = "DECJZ" then
    match instr.args.get? 0, instr.args.get? 1 with
    | some a0, some a1 =>
      let r := regname a0
      if dget vm.registers r = 0 then
        match alookup vm.labels a1 with
        | some target => ({ vm with pc := target }, none)
        | none => (vm, some ("Unknown label: " ++ a1))
      else
        ({ vm with registers := aset vm.registers r (dget vm.registers r - 1),
                   pc := vm.pc + 1 }, none)
    | _, _ => (vm, some "IndexError")
  else if instr.op = "GOTO" then
    match instr.args.get? 0 with
    | some a0 =>
      match alookup vm.labels a0 with
      | some target => ({ vm with pc := target }, none)
      | none => (vm, some ("Unknown label: " ++ a0))
    | none => (vm, some "IndexError")
  else if instr.op = "PRINT" then
    ({ vm with output := vm.output ++ ["TIME: " ++ toString (dget vm.registers "TIME")],
               pc := vm.pc + 1 }, none)
  else if instr.op = "HALT" then
    ({ vm with output := vm.output ++ ["BEEEEEEP!"], halted := true }, none)
  else
    (vm, none)

/-- `MicrowaveVM.step`: no-op when halted; implicit halt when the program
counter is out of bounds; otherwise fetch, count the step, and dispatch. -/
def step (vm : VM) : VM × Option String :=
  if vm.halted then (vm, none)
  else
    match vm.program.get? vm.pc with
    | none => ({ vm with halted := true }, none)
    | some instr => execInstr { vm with steps := vm.steps + 1 } instr

/-- The message of the step-limit `RuntimeError` raised by `run`. -/
def stepLimitMsg : String :=
  "Step limit reached (possible infinite loop)."

/-- `MicrowaveVM.reset_registers`: seed both registers, rewind pc, halted
flag and step counter; the program and label table are untouched. -/
def reset_registers (vm : VM) (TIME POWER : Int) : VM :=
  { vm with registers := aset (aset vm.registers "TIME" TIME) "POWER" POWER,
            pc := 0, halted := false, steps := 0 }

/-- Every branch of the instruction dispatch leaves the step counter as it
found it (the increment happens in `step`, before the dispatch). -/
theorem execInstr_steps (vm : VM) (instr : Instr) : (execInstr vm instr).1.steps = vm.steps := by
  unfold execInstr
  dsimp only
  repeat' split
  all_goals rfl

/-- A successful step of a non-halted machine either counted an executed
instruction or was the silent implicit halt. -/
theorem step_progress (vm : VM) (h : vm.halted = false) (he : (step vm).2 = none) :
    (step vm).1.steps = vm.steps + 1 ∨ ((step vm).1.halted = true ∧ (step vm).1.steps = vm.steps) := by
  unfold step
  rw [h]
  simp only [Bool.false_eq_true, if_false]
  cases hg : vm.program.get? vm.pc with
  | none => right; exact ⟨rfl, rfl⟩
  | some instr => left; exact execInstr_steps _ instr

/-- `MicrowaveVM.run` with a supplied `max_steps` budget (the unbounded
variant is the same loop without the budget test and need not terminate).
The loop raises once the step counter reaches the budget. -/
def run (vm : VM) (max_steps : Nat) : VM × Option String :=
  if h : vm.halted then (vm, none)
  else if max_steps ≤ vm.steps then (vm, some stepLimitMsg)
  else
    match hs : step vm with
    | (vm', none) => run vm' max_steps
    | (vm', some e) => (vm', some e)
termination_by 2 * (max_steps - vm.steps) + (if vm.halted then 0 else 1)
decreasing_by
  have hh : vm.halted = false := by simpa using h
  have hp := step_progress vm hh (by rw [hs])
  rw [hs] at hp
  dsimp only at hp
  have hlt : vm.steps < max_steps := by omega
  simp only [hh, Bool.false_eq_true, if_false]
  rcases hp with h1 | ⟨h2, h3⟩
  · rw [h1]
    cases hb : vm'.halted <;>
      simp only [Bool.false_eq_true, if_false, if_true] <;> omega
  · rw [h2, h3]
    simp only [if_true]
    omega

/-- Iterate `step` up to `n` times, stopping at (and returning) the first
raised error: the trajectory of a machine driven by repeated single steps. -/
def stepN (vm : VM) : Nat → VM × Option String
  | 0 => (vm, none)
  | n + 1 =>
    match step vm with
    | (vm', none) => stepN vm' n
    | (vm', some e) => (vm', some e)

/-- The spec's words for comment stripping: "a comment consumes everything
from that character to end of line ... first occurrence of either character
wins", then surrounding whitespace is trimmed. -/
def stripCommentSpec (raw : String) : String :=
  pyStrip ⟨raw.data.takeWhile (fun c => !(c = ';') && !(c = '#'))⟩

/- Association-list dictionary lemmas. -/

theorem alookup_aset_self {α : Type} (m : List (String × α)) (k : String) (v : α) :
    alookup (aset m k v) k = some v := by
  induction m with
  | nil => simp [aset, alookup]
  | cons p rest ih =>
    obtain ⟨k', v'⟩ := p
    by_cases hk : k' = k
    · subst hk
      simp [aset, alookup]
    · simp [aset, alookup, hk, ih]

theorem alookup_aset_ne {α : Type} (m : List (String × α)) (k k2 : String) (v : α)
    (h : ¬k = k2) : alookup (aset m k v) k2 = alookup m k2 := by
  induction m with
  | nil => simp [aset, alookup, h]
  | cons p rest ih =>
    obtain ⟨k', v'⟩ := p
    by_cases hk : k' = k
    · subst hk
      simp [aset, alookup, h]
    · simp [aset, alookup, hk, ih]

/-- Taking characters up to the first `;` and then up to the first `#` is
taking characters up to the first occurrence of either. -/
theorem takeWhile_comment (l : List Char) :
    (l.takeWhile (fun x => !(x = ';'))).takeWhile (fun x => !(x = '#')) =
      l.takeWhile (fun c => !(c = ';') && !(c = '#')) := by
  induction l with
  | nil => rfl
  | cons c rest ih =>
    by_cases h1 : c = ';'
    · subst h1
      simp [List.takeWhile]
    · by_cases h2 : c = '#'
      · subst h2
        simp [List.takeWhile, h1]
      · simp [List.takeWhile, h1, h2, ih]

/-- C2: Single-stepping a `DECJZ` instruction on register `r`: if the
register holds 0, the step leaves the registers unchanged (so `r` stays 0)
and sets the program counter to the label's resolved index, raising the
unknown-label error if the label is absent from the label table; if the
register holds `n > 0`, the step sets it to `n - 1` and advances the
program counter by exactly 1.  Every executed case counts one step. -/
theorem c2_decjz_semantics (vm : VM) (r L : String) (h : vm.halted = false)
    (hi : vm.program.get? vm.pc = some ⟨"DECJZ", [r, L]⟩) :
    (dget vm.registers (regname r) = 0 →
      (∀ t, alookup vm.labels L = some t →
        step vm = ({ vm with steps := vm.steps + 1, pc := t }, none)) ∧
      (alookup vm.labels L = none →
        step vm = ({ vm with steps := vm.steps + 1 }, some ("Unknown label: " ++ L)))) ∧
    (∀ n : Int, dget vm.registers (regname r) = n → 0 < n →
      step vm = ({ vm with
                   steps := vm.steps + 1,
                   registers := aset vm.registers (regname r) (n - 1),
                   pc := vm.pc + 1 }, none)) := by
  unfold step
  rw [h, hi]
  simp only [Bool.false_eq_true, if_false]
  refine ⟨fun hr => ⟨fun t ht => ?_, fun ht => ?_⟩, fun n hn hpos => ?_⟩
  · unfold execInstr
    simp [hr, ht]
  · unfold execInstr
    simp [hr, ht]
  · unfold execInstr
    have hnz : ¬n = 0 := by omega
    simp [hn, hnz]

/-- A concrete machine about to execute `DECJZ TIME end` with TIME = 0. -/
def decjzVM0 : VM :=
  { initVM with program := [⟨"DECJZ", ["TIME", "end"]⟩], labels := [("end", 1)] }

/-- The same machine with TIME = 2. -/
def decjzVM2 : VM :=
  { decjzVM0 with registers := [("TIME", 2), ("POWER", 0)] }

/-- Witness for C2 on a concrete machine: `DECJZ TIME end` with TIME = 0
jumps to the resolved index of `end`, and with TIME = 2 decrements. -/
theorem c2_witness :
    (step decjzVM0 = ({ decjzVM0 with steps := 1, pc := 1 }, none)) ∧
    (step decjzVM2 =
      ({ decjzVM2 with registers := [("TIME", 1), ("POWER", 0)], steps := 1, pc := 1 }, none)) := by
  constructor
  · exact ((c2_decjz_semantics decjzVM0 "TIME" "end" rfl rfl).1 (by decide)).1 1 rfl
  · have h := (c2_decjz_semantics decjzVM2 "TIME" "end" rfl rfl).2 2 (by decide) (by decide)
    simpa using h

/-- C4: stepping with the program counter outside the program while not
halted silently transitions to Halted: no output event is emitted and the
step counter does not move.  Executing a `HALT` instruction also transitions
to Halted but emits the distinct halt event and counts a step, so the two
halt modes are observably distinguishable. -/
theorem c4_implicit_vs_explicit_halt (vm : VM) (h : vm.halted = false) :
    (vm.program.length ≤ vm.pc →
      step vm = ({ vm with halted := true }, none)) ∧
    (∀ args, vm.program.get? vm.pc = some ⟨"HALT", args⟩ →
      step vm = ({ vm with
                   steps := vm.steps + 1, halted := true,
                   output := vm.output ++ ["BEEEEEEP!"] }, none)) := by
  constructor
  · intro hlen
    have hg : vm.program.get? vm.pc = none := List.get?_eq_none.2 hlen
    unfold step
    rw [h, hg]
    rfl
  · intro args hi
    unfold step
    rw [h, hi]
    simp [execInstr]

/-- A machine whose program counter has already run past its program. -/
def ranOffVM : VM :=
  { initVM with program := [⟨"INC", ["TIME"]⟩], pc := 1 }

/-- A machine about to execute an explicit `HALT`. -/
def haltVM : VM :=
  { initVM with program := [⟨"HALT", []⟩] }

/-- Witness for C4: a one-instruction program with the counter already past
the end halts silently; a `HALT` instruction halts with the beep event. -/
theorem c4_witness :
    (step ranOffVM = ({ ranOffVM with halted := true }, none)) ∧
    (step haltVM = ({ haltVM with steps := 1, halted := true, output := ["BEEEEEEP!"] }, none)) := by
  constructor
  · exact (c4_implicit_vs_explicit_halt ranOffVM rfl).1 (by decide)
  · exact (c4_implicit_vs_explicit_halt haltVM rfl).2 [] rfl

/-- C6: the Halted state is absorbing: stepping a halted machine returns
normally (no error) and mutates nothing at all. -/
theorem c6_halted_absorbing (vm : VM) (h : vm.halted = true) :
    step vm = (vm, none) := by
  simp [step, h]

/-- A concrete machine that is already halted. -/
def haltedVM : VM :=
  { initVM with program := [⟨"INC", ["TIME"]⟩], halted := true }

/-- Witness for C6 on a concrete halted machine. -/
theorem c6_witness : step haltedVM = (haltedVM, none) :=
  c6_halted_absorbing haltedVM rfl

/-- C8: `reset_registers` seeds the two registers with the supplied values,
rewinds the program counter, halted flag and step counter, and leaves the
loaded program and label table unchanged. -/
theorem c8_reset_registers (vm : VM) (t p : Int) :
    (reset_registers vm t p).program = vm.program ∧
    (reset_registers vm t p).labels = vm.labels ∧
    (reset_registers vm t p).pc = 0 ∧
    (reset_registers vm t p).halted = false ∧
    (reset_registers vm t p).steps = 0 ∧
    dget (reset_registers vm t p).registers "TIME" = t ∧
    dget (reset_registers vm t p).registers "POWER" = p := by
  refine ⟨rfl, rfl, rfl, rfl, rfl, ?_, ?_⟩
  · unfold reset_registers dget
    rw [alookup_aset_ne _ _ _ _ (by decide), alookup_aset_self]
    rfl
  · unfold reset_registers dget
    rw [alookup_aset_self]
    rfl

/-- C7: line normalization keeps exactly the text before the first
occurrence of either comment character `;` or `#` (even mid-token, whichever
comes first wins), trimmed of surrounding whitespace — and both loader
passes see a raw line only through this normalization. -/
theorem c7_comment_stripping (raw : String) :
    normalizeLine raw = stripCommentSpec raw ∧
    (∀ (st : List (String × Nat) × Nat) (raw2 : String),
      normalizeLine raw2 = normalizeLine raw → pass1Step st raw2 = pass1Step st raw) ∧
    (∀ (prog : List Instr) (raw2 : String),
      normalizeLine raw2 = normalizeLine raw → pass2Step prog raw2 = pass2Step prog raw) := by
  refine ⟨?_, ?_, ?_⟩
  · unfold normalizeLine stripCommentSpec untilChar
    show pyStrip ⟨List.takeWhile _ (List.takeWhile _ raw.data)⟩ = _
    rw [takeWhile_comment]
  · intro st raw2 hn
    unfold pass1Step
    rw [hn]
  · intro prog raw2 hn
    unfold pass2Step
    rw [hn]

/-- Witness for C7: `#` wins in "a#b;c", `;` wins in "a;b#c", and two raw
lines with the same normalization are interchangeable in both passes. -/
theorem c7_witness :
    normalizeLine "a#b;c" = stripCommentSpec "a#b;c" ∧
    normalizeLine "a#b;c" = "a" ∧
    pass1Step ([], 0) "lbl: ; note" = pass1Step ([], 0) "lbl:" ∧
    pass2Step [] "INC TIME # note" = pass2Step [] "INC TIME" := by
  refine ⟨(c7_comment_stripping "a#b;c").1, by decide, ?_, ?_⟩
  · exact (c7_comment_stripping "lbl:").2.1 ([], 0) "lbl: ; note" (by decide)
  · exact (c7_comment_stripping "INC TIME").2.2 [] "INC TIME # note" (by decide)

/-- C9: the loader accepts `SET` with any literal Python `int` parses (in
particular negative signed decimals), executing that `SET` stores the
negative value, and a `DECJZ` on a register holding a negative value takes
the decrement branch — the value becomes one smaller (more negative) and
the program counter advances by 1 — so registers are not kept non-negative. -/
theorem c9_negative_registers :
    (∀ (line lit : String) (v : Int), pyInt lit = some v → v < 0 →
      validateTokens line ["SET", "TIME", lit] = Except.ok ⟨"SET", ["TIME", lit]⟩) ∧
    (∀ (vm : VM) (a0 lit : String) (v : Int), vm.halted = false →
      vm.program.get? vm.pc = some ⟨"SET", [a0, lit]⟩ → pyInt lit = some v →
      step vm = ({ vm with
                   steps := vm.steps + 1,
                   registers := aset vm.registers (regname a0) v,
                   pc := vm.pc + 1 }, none)) ∧
    (∀ (vm : VM) (r L : String) (n : Int), vm.halted = false →
      vm.program.get? vm.pc = some ⟨"DECJZ", [r, L]⟩ →
      dget vm.registers (regname r) = n → n < 0 →
      step vm = ({ vm with
                   steps := vm.steps + 1,
                   registers := aset vm.registers (regname r) (n - 1),
                   pc := vm.pc + 1 }, none)) := by
  refine ⟨?_, ?_, ?_⟩
  · intro line lit v hv _
    unfold validateTokens
    have hns : (pyInt lit).isNone = false := by rw [hv]; rfl
    have hset : pyUpper "SET" = "SET" := by decide
    have htime : pyUpper "TIME" = "TIME" := by decide
    simp [validReg, regname, hns, hset, htime]
  · intro vm a0 lit v h hi hv
    unfold step
    rw [h, hi]
    simp only [Bool.false_eq_true, if_false]
    unfold execInstr
    simp [hv]
  · intro vm r L n h hi hn hneg
    unfold step
    rw [h, hi]
    simp only [Bool.false_eq_true, if_false]
    unfold execInstr
    have hnz : ¬n = 0 := by omega
    simp [hn, hnz]

/-- A concrete machine about to execute `SET TIME -5`. -/
def setNegVM : VM :=
  { initVM with program := [⟨"SET", ["TIME", "-5"]⟩] }

/-- A concrete machine about to execute `DECJZ TIME x` with TIME = -5. -/
def decjzNegVM : VM :=
  { initVM with registers := [("TIME", -5), ("POWER", 0)],
                program := [⟨"DECJZ", ["TIME", "x"]⟩] }

/-- Witness for C9: the loader accepts `SET TIME -5`, executing it stores
-5, and `DECJZ` on -5 yields -6 with the program counter advanced. -/
theorem c9_witness :
    validateTokens "SET TIME -5" ["SET", "TIME", "-5"] = Except.ok ⟨"SET", ["TIME", "-5"]⟩ ∧
    step setNegVM =
      ({ setNegVM with steps := 1, registers := aset setNegVM.registers (regname "TIME") (-5),
                       pc := 1 }, none) ∧
    step decjzNegVM =
      ({ decjzNegVM with steps := 1,
                         registers := aset decjzNegVM.registers (regname "TIME") (-5 - 1),
                         pc := 1 }, none) := by
  refine ⟨?_, ?_, ?_⟩
  · exact c9_negative_registers.1 "SET TIME -5" "-5" (-5) (by decide) (by decide)
  · exact c9_negative_registers.2.1 setNegVM "TIME" "-5" (-5) rfl rfl (by decide)
  · exact c9_negative_registers.2.2 decjzNegVM "TIME" "x" (-5) rfl rfl (by decide) (by decide)

/-- C10: a normalized non-empty line whose last character is `:` is treated
as a label definition in both passes whatever its interior text (so label
names may contain whitespace and opcode-like text): the first pass records
the stripped interior as a label at the current slot counter without
advancing it, and the second pass skips the line instead of parsing it as
an instruction. -/
theorem c10_trailing_colon_is_label (lbls : List (String × Nat)) (idx : Nat) (raw : String)
    (h1 : ¬normalizeLine raw = "") (h2 : endsColon (normalizeLine raw) = true)
    (h3 : ¬pyStrip (dropLastChar (normalizeLine raw)) = "")
    (h4 : alookup lbls (pyStrip (dropLastChar (normalizeLine raw))) = none) :
    pass1Step (lbls, idx) raw =
      ((lbls ++ [(pyStrip (dropLastChar (normalizeLine raw)), idx)], idx), none) ∧
    (∀ prog : List Instr, pass2Step prog raw = (prog, none)) := by
  constructor
  · unfold pass1Step
    simp [h1, h2, h3, h4]
  · intro prog
    unfold pass2Step
    simp [h1, h2]

/-- Witness for C10: the line `GOTO x:` defines a label named `GOTO x` at
the current counter and is skipped by the instruction pass. -/
theorem c10_witness :
    pyStrip (dropLastChar (normalizeLine "GOTO x:")) = "GOTO x" ∧
    pass1Step ([], 0) "GOTO x:" = (([("GOTO x", 0)], 0), none) ∧
    pass2Step [] "GOTO x:" = ([], none) := by
  have h := c10_trailing_colon_is_label [] 0 "GOTO x:" (by decide) (by decide) (by decide) rfl
  exact ⟨by decide, h.1, h.2 []⟩

/-- C1 counterexample: a failed load can leave a partially built new
program observable to the caller.  A machine that held the one-instruction
program `HALT` is loaded with a source whose third line has an unknown
opcode: the load raises, yet afterwards the machine's instruction sequence
is the partial new `[INC TIME]` (neither empty nor the old program) and the
label table holds the new label — a partial program was committed. -/
theorem c1_counterexample :
    (load_program initVM "HALT").1.program = [⟨"HALT", []⟩] ∧
    (load_program (load_program initVM "HALT").1 "a:\nINC TIME\nFOO").2 =
      some "Unknown opcode: FOO" ∧
    (load_program (load_program initVM "HALT").1 "a:\nINC TIME\nFOO").1.program =
      [⟨"INC", ["TIME"]⟩] ∧
    (load_program (load_program initVM "HALT").1 "a:\nINC TIME\nFOO").1.labels =
      [("a", 0)] := by
  refine ⟨by decide, by decide, by decide, by decide⟩

/-- C1 as amended: a failed (or successful) load never leaves a mix of old
and new state: `load_program` first clears the program, label table,
program counter, halted flag and step counter, so its entire outcome —
including the partially built program and labels left behind by a failure —
is independent of whatever was previously loaded (only the registers and
the output trace, which the loader does not touch, persist). -/
theorem c1_load_clears_old_state (vm1 vm2 : VM) (source : String)
    (hreg : vm1.registers = vm2.registers) (hout : vm1.output = vm2.output) :
    load_program vm1 source = load_program vm2 source := by
  cases vm1
  cases vm2
  dsimp only at hreg hout
  subst hreg
  subst hout
  rfl

/-- Witness for the amended C1: a fresh machine and one already holding a
loaded `HALT` program load the same (failing) source to identical states. -/
theorem c1_witness :
    load_program initVM "a:\nINC TIME\nFOO" =
      load_program (load_program initVM "HALT").1 "a:\nINC TIME\nFOO" :=
  c1_load_clears_old_state initVM (load_program initVM "HALT").1 "a:\nINC TIME\nFOO"
    (by decide) (by decide)

/-!
Loader characterization.  `labelSpecs`, `parsedList` and friends restate,
line by line, what the two passes of `load_program` build, so that the
loader's behaviour on a well-formed source can be described in closed form.
-/

/-- A raw line that the loader treats as a label definition: nonempty after
normalization and ending in `:`. -/
def isLabelLine (raw : String) : Bool :=
  !(normalizeLine raw = "") && endsColon (normalizeLine raw)

/-- A raw line that the loader parses as an instruction: nonempty after
normalization and not ending in `:`. -/
def isInstrLine (raw : String) : Bool :=
  !(normalizeLine raw = "") && !(endsColon (normalizeLine raw))

/-- The label a label-definition line defines: the stripped text before the
trailing `:`. -/
def labelOf (raw : String) : String :=
  pyStrip (dropLastChar (normalizeLine raw))

/-- How many instruction slots a list of raw lines occupies. -/
def instrCount (lines : List String) : Nat :=
  (lines.filter isInstrLine).length

/-- The label names a list of raw lines defines, in order. -/
def labelNames (lines : List String) : List String :=
  (lines.filter isLabelLine).map labelOf

/-- The label table the first pass builds from `lines`, slot counting
starting at `idx` (assuming no duplicates abort it). -/
def labelSpecs (idx : Nat) : List String → List (String × Nat)
  | [] => []
  | raw :: rest =>
    if normalizeLine raw = "" then labelSpecs idx rest
    else if endsColon (normalizeLine raw) then (labelOf raw, idx) :: labelSpecs idx rest
    else labelSpecs (idx + 1) rest

/-- The instruction a raw line contributes, if it is an instruction line
that validates. -/
def parsedLine (raw : String) : Option Instr :=
  if isInstrLine raw then (parseInstr (normalizeLine raw)).toOption else none

/-- The instruction sequence the second pass builds (assuming every
instruction line validates). -/
def parsedList (lines : List String) : List Instr :=
  lines.filterMap parsedLine

theorem labelNames_append (xs ys : List String) :
    labelNames (xs ++ ys) = labelNames xs ++ labelNames ys := by
  simp [labelNames, List.filter_append]

theorem labelNames_cons_label (raw : String) (rest : List String)
    (h : isLabelLine raw = true) :
    labelNames (raw :: rest) = labelOf raw :: labelNames rest := by
  simp [labelNames, List.filter_cons, h]

theorem labelNames_cons_other (raw : String) (rest : List String)
    (h : isLabelLine raw = false) :
    labelNames (raw :: rest) = labelNames rest := by
  simp [labelNames, List.filter_cons, h]

theorem instrCount_append (xs ys : List String) :
    instrCount (xs ++ ys) = instrCount xs + instrCount ys := by
  simp [instrCount, List.filter_append]

theorem instrCount_cons_instr (raw : String) (rest : List String)
    (h : isInstrLine raw = true) :
    instrCount (raw :: rest) = instrCount rest + 1 := by
  simp [instrCount, List.filter_cons, h, Nat.add_comm]

theorem instrCount_cons_other (raw : String) (rest : List String)
    (h : isInstrLine raw = false) :
    instrCount (raw :: rest) = instrCount rest := by
  simp [instrCount, List.filter_cons, h]

theorem labelSpecs_cons_empty (idx : Nat) (raw : String) (rest : List String)
    (h : normalizeLine raw = "") :
    labelSpecs idx (raw :: rest) = labelSpecs idx rest := by
  simp [labelSpecs, h]

theorem labelSpecs_cons_label (idx : Nat) (raw : String) (rest : List String)
    (h : isLabelLine raw = true) :
    labelSpecs idx (raw :: rest) = (labelOf raw, idx) :: labelSpecs idx rest := by
  have h1 : ¬normalizeLine raw = "" := by
    simp [isLabelLine] at h
    exact h.1
  have h2 : endsColon (normalizeLine raw) = true := by
    simp [isLabelLine] at h
    exact h.2
  simp [labelSpecs, h1, h2]

theorem labelSpecs_cons_instr (idx : Nat) (raw : String) (rest : List String)
    (h : isInstrLine raw = true) :
    labelSpecs idx (raw :: rest) = labelSpecs (idx + 1) rest := by
  have h1 : ¬normalizeLine raw = "" := by
    simp [isInstrLine] at h
    exact h.1
  have h2 : ¬endsColon (normalizeLine raw) = true := by
    simp [isInstrLine] at h
    simp [h.2]
  simp [labelSpecs, h1, h2]

theorem labelSpecs_append (xs ys : List String) : ∀ idx : Nat,
    labelSpecs idx (xs ++ ys) = labelSpecs idx xs ++ labelSpecs (idx + instrCount xs) ys := by
  induction xs with
  | nil => intro idx; simp [labelSpecs, instrCount]
  | cons raw rest ih =>
    intro idx
    by_cases h1 : normalizeLine raw = ""
    · have hI : isInstrLine raw = false := by simp [isInstrLine, h1]
      rw [List.cons_append, labelSpecs_cons_empty _ _ _ h1, labelSpecs_cons_empty _ _ _ h1,
        ih idx, instrCount_cons_other _ _ hI]
    · by_cases h2 : endsColon (normalizeLine raw) = true
      · have hL : isLabelLine raw = true := by simp [isLabelLine, h1, h2]
        have hI : isInstrLine raw = false := by simp [isInstrLine, h1, h2]
        rw [List.cons_append, labelSpecs_cons_label _ _ _ hL, labelSpecs_cons_label _ _ _ hL,
          ih idx, instrCount_cons_other _ _ hI, List.cons_append]
      · have hI : isInstrLine raw = true := by
          simp [isInstrLine, h1]
          simp at h2
          simp [h2]
        rw [List.cons_append, labelSpecs_cons_instr _ _ _ hI, labelSpecs_cons_instr _ _ _ hI,
          ih (idx + 1), instrCount_cons_instr _ _ hI]
        have : idx + 1 + instrCount rest = idx + (instrCount rest + 1) := by omega
        rw [this]

theorem labelSpecs_keys (lines : List String) : ∀ idx : Nat,
    (labelSpecs idx lines).map Prod.fst = labelNames lines := by
  induction lines with
  | nil => intro idx; simp [labelSpecs, labelNames]
  | cons raw rest ih =>
    intro idx
    by_cases h1 : normalizeLine raw = ""
    · have hL : isLabelLine raw = false := by simp [isLabelLine, h1]
      rw [labelSpecs_cons_empty _ _ _ h1, labelNames_cons_other _ _ hL, ih idx]
    · by_cases h2 : endsColon (normalizeLine raw) = true
      · have hL : isLabelLine raw = true := by simp [isLabelLine, h1, h2]
        rw [labelSpecs_cons_label _ _ _ hL, labelNames_cons_label _ _ hL, List.map_cons, ih idx]
      · have hL : isLabelLine raw = false := by simp [isLabelLine, h1, h2]
        have hI : isInstrLine raw = true := by
          simp [isInstrLine, h1]
          simp at h2
          simp [h2]
        rw [labelSpecs_cons_instr _ _ _ hI, labelNames_cons_other _ _ hL, ih (idx + 1)]

theorem alookup_append {α : Type} (l1 l2 : List (String × α)) (k : String) :
    alookup (l1 ++ l2) k =
      match alookup l1 k with
      | some v => some v
      | none => alookup l2 k := by
  induction l1 with
  | nil => simp [alookup]
  | cons p rest ih =>
    obtain ⟨k', v'⟩ := p
    by_cases h : k' = k
    · simp [alookup, h]
    · simp [alookup, h, ih]

theorem alookup_eq_none_of_not_mem {α : Type} (l : List (String × α)) (k : String)
    (h : ¬k ∈ l.map Prod.fst) : alookup l k = none := by
  induction l with
  | nil => rfl
  | cons p rest ih =>
    obtain ⟨k', v'⟩ := p
    have h1 : ¬k' = k := by
      intro he
      exact h (by simp [he])
    have h2 : ¬k ∈ rest.map Prod.fst := by
      intro hm
      exact h (by simp [hm])
    unfold alookup
    rw [if_neg h1]
    exact ih h2

theorem parsedList_append (xs ys : List String) :
    parsedList (xs ++ ys) = parsedList xs ++ parsedList ys := by
  simp [parsedList, List.filterMap_append]

theorem parsedList_cons_some (raw : String) (rest : List String) (i : Instr)
    (h : parsedLine raw = some i) :
    parsedList (raw :: rest) = i :: parsedList rest := by
  simp [parsedList, List.filterMap_cons, h]

theorem parsedList_length (lines : List String)
    (h : ∀ raw ∈ lines, isInstrLine raw = true → (parsedLine raw).isSome = true) :
    (parsedList lines).length = instrCount lines := by
  induction lines with
  | nil => simp [parsedList, instrCount]
  | cons raw rest ih =>
    have ihs := ih (fun r hr hi => h r (List.mem_cons_of_mem _ hr) hi)
    by_cases hI : isInstrLine raw = true
    · have hsome := h raw (List.mem_cons_self _ _) hI
      obtain ⟨i, hi⟩ := Option.isSome_iff_exists.mp hsome
      rw [parsedList_cons_some _ _ _ hi, instrCount_cons_instr _ _ hI]
      simp [ihs]
    · have hnone : parsedLine raw = none := by
        unfold parsedLine
        simp at hI
        simp [hI]
      rw [instrCount_cons_other _ _ (by simp at hI; simp [hI])]
      simp [parsedList, List.filterMap_cons, hnone]
      exact ihs

/-- First pass, characterized: if every label name is nonempty, pairwise
distinct and absent from the table built so far, label collection succeeds
and appends exactly `labelSpecs`, leaving the slot counter advanced by the
number of instruction lines. -/
theorem pass1_ok (lines : List String) : ∀ (lbls : List (String × Nat)) (idx : Nat),
    (∀ nm ∈ labelNames lines, ¬nm = "" ∧ alookup lbls nm = none) →
    (labelNames lines).Nodup →
    foldSteps pass1Step (lbls, idx) lines =
      ((lbls ++ labelSpecs idx lines, idx + instrCount lines), none) := by
  induction lines with
  | nil =>
    intro lbls idx _ _
    simp [foldSteps, labelSpecs, instrCount]
  | cons raw rest ih =>
    intro lbls idx hfresh hnodup
    by_cases h1 : normalizeLine raw = ""
    · have hL : isLabelLine raw = false := by simp [isLabelLine, h1]
      have hI : isInstrLine raw = false := by simp [isInstrLine, h1]
      have hstep : pass1Step (lbls, idx) raw = ((lbls, idx), none) := by
        unfold pass1Step
        simp [h1]
      rw [labelNames_cons_other _ _ hL] at hfresh hnodup
      rw [foldSteps, hstep]
      dsimp only
      rw [ih lbls idx hfresh hnodup,
        labelSpecs_cons_empty _ _ _ h1, instrCount_cons_other _ _ hI]
    · by_cases h2 : endsColon (normalizeLine raw) = true
      · have hL : isLabelLine raw = true := by simp [isLabelLine, h1, h2]
        have hI : isInstrLine raw = false := by simp [isInstrLine, h1, h2]
        rw [labelNames_cons_label _ _ hL] at hfresh hnodup
        have hhead := hfresh (labelOf raw) (List.mem_cons_self _ _)
        have hstep : pass1Step (lbls, idx) raw = ((lbls ++ [(labelOf raw, idx)], idx), none) := by
          unfold pass1Step
          simp only [labelOf] at hhead
          simp [h1, h2, labelOf, hhead.1, hhead.2]
        have hnotmem : ¬labelOf raw ∈ labelNames rest := (List.nodup_cons.mp hnodup).1
        have hfresh2 : ∀ nm ∈ labelNames rest, ¬nm = "" ∧
            alookup (lbls ++ [(labelOf raw, idx)]) nm = none := by
          intro nm hnm
          have hn := hfresh nm (List.mem_cons_of_mem _ hnm)
          refine ⟨hn.1, ?_⟩
          rw [alookup_append, hn.2]
          have : ¬labelOf raw = nm := fun he => hnotmem (he ▸ hnm)
          simp [alookup, this]
        rw [foldSteps, hstep]
        dsimp only
        rw [ih _ idx hfresh2 (List.nodup_cons.mp hnodup).2,
          labelSpecs_cons_label _ _ _ hL, instrCount_cons_other _ _ hI, List.append_assoc]
        rfl
      · have hL : isLabelLine raw = false := by simp [isLabelLine, h1, h2]
        have hI : isInstrLine raw = true := by
          simp [isInstrLine, h1]
          simp at h2
          simp [h2]
        have hstep : pass1Step (lbls, idx) raw = ((lbls, idx + 1), none) := by
          unfold pass1Step
          simp [h1, h2]
        rw [labelNames_cons_other _ _ hL] at hfresh hnodup
        rw [foldSteps, hstep]
        dsimp only
        rw [ih lbls (idx + 1) hfresh hnodup,
          labelSpecs_cons_instr _ _ _ hI, instrCount_cons_instr _ _ hI]
        have : idx + 1 + instrCount rest = idx + (instrCount rest + 1) := by omega
        rw [this]

/-- Second pass, characterized: if every instruction line validates, parsing
succeeds and appends exactly `parsedList`. -/
theorem pass2_ok (lines : List String) : ∀ prog : List Instr,
    (∀ raw ∈ lines, isInstrLine raw = true → (parsedLine raw).isSome = true) →
    foldSteps pass2Step prog lines = (prog ++ parsedList lines, none) := by
  induction lines with
  | nil =>
    intro prog _
    simp [foldSteps, parsedList]
  | cons raw rest ih =>
    intro prog h
    have hrest := fun r hr hi => h r (List.mem_cons_of_mem _ hr) hi
    by_cases hI : isInstrLine raw = true
    · have hsome := h raw (List.mem_cons_self _ _) hI
      obtain ⟨i, hi⟩ := Option.isSome_iff_exists.mp hsome
      have h1 : ¬normalizeLine raw = "" := by
        simp [isInstrLine] at hI
        exact hI.1
      have h2 : ¬endsColon (normalizeLine raw) = true := by
        simp [isInstrLine] at hI
        simp [hI.2]
      have hok : parseInstr (normalizeLine raw) = Except.ok i := by
        unfold parsedLine at hi
        rw [if_pos hI] at hi
        cases hp : parseInstr (normalizeLine raw) with
        | ok j => rw [hp] at hi; simpa [Except.toOption] using hi
        | error e => rw [hp] at hi; simp [Except.toOption] at hi
      have hstep : pass2Step prog raw = (prog ++ [i], none) := by
        unfold pass2Step
        simp [h1, h2, hok]
      rw [foldSteps, hstep]
      dsimp only
      rw [ih _ hrest, parsedList_cons_some _ _ _ hi, List.append_assoc]
      rfl
    · have hskip : pass2Step prog raw = (prog, none) := by
        unfold pass2Step
        simp [isInstrLine] at hI
        by_cases h1 : normalizeLine raw = ""
        · simp [h1]
        · simp [h1, hI h1]
      have hnone : parsedLine raw = none := by
        unfold parsedLine
        simp at hI
        simp [hI]
      rw [foldSteps, hskip]
      dsimp only
      rw [ih _ hrest]
      simp [parsedList, List.filterMap_cons, hnone]

/-- `load_program` on a well-formed source, in closed form: it succeeds and
installs exactly the characterized label table and instruction sequence,
rewinding pc, halted and steps. -/
theorem load_program_ok (vm : VM) (source : String) (lines : List String)
    (hs : splitlines source = lines)
    (hl1 : ∀ nm ∈ labelNames lines, ¬nm = "")
    (hl2 : (labelNames lines).Nodup)
    (hl3 : ∀ raw ∈ lines, isInstrLine raw = true → (parsedLine raw).isSome = true) :
    load_program vm source =
      ({ vm with
         program := parsedList lines, labels := labelSpecs 0 lines,
         pc := 0, halted := false, steps := 0 }, none) := by
  unfold load_program
  rw [hs]
  dsimp only
  rw [pass1_ok lines [] 0 (fun nm h => ⟨hl1 nm h, rfl⟩) hl2]
  dsimp only
  rw [pass2_ok lines [] hl3]
  dsimp only
  simp

/-- Executing `GOTO L` with `L` resolvable jumps to the resolved index. -/
theorem step_goto (vm : VM) (L : String) (t : Nat) (h : vm.halted = false)
    (hi : vm.program.get? vm.pc = some ⟨"GOTO", [L]⟩)
    (ht : alookup vm.labels L = some t) :
    step vm = ({ vm with steps := vm.steps + 1, pc := t }, none) := by
  unfold step
  rw [h, hi]
  simp only [Bool.false_eq_true, if_false]
  unfold execInstr
  simp [ht]

/-- Executing `DECJZ r L` with the register at 0 and `L` resolvable jumps
to the resolved index. -/
theorem step_decjz_zero (vm : VM) (r L : String) (t : Nat) (h : vm.halted = false)
    (hi : vm.program.get? vm.pc = some ⟨"DECJZ", [r, L]⟩)
    (hr : dget vm.registers (regname r) = 0)
    (ht : alookup vm.labels L = some t) :
    step vm = ({ vm with steps := vm.steps + 1, pc := t }, none) := by
  unfold step
  rw [h, hi]
  simp only [Bool.false_eq_true, if_false]
  unfold execInstr
  simp [hr, ht]

theorem get?_append_len {α : Type} (l1 l2 : List α) :
    (l1 ++ l2).get? l1.length = l2.get? 0 := by
  induction l1 with
  | nil => rfl
  | cons a rest ih => simpa [List.get?] using ih

/-- C3: a program whose `DECJZ` or `GOTO` target label is defined after the
referencing line in source order (here: the lines split as
`A ++ refLine :: (B1 ++ labLine :: B2)` with every line well formed) loads
successfully; the label table maps the label to the index of the
instruction immediately following its definition (label lines occupying no
slot); and executing the referencing instruction sets the program counter
to exactly that index. -/
theorem c3_forward_references (vm : VM) (source : String)
    (A B1 B2 : List String) (refLine labLine : String) (i : Instr)
    (hsplit : splitlines source = A ++ refLine :: (B1 ++ labLine :: B2))
    (hnm : ∀ nm ∈ labelNames (A ++ refLine :: (B1 ++ labLine :: B2)), ¬nm = "")
    (hnodup : (labelNames (A ++ refLine :: (B1 ++ labLine :: B2))).Nodup)
    (hparse : ∀ raw ∈ A ++ refLine :: (B1 ++ labLine :: B2),
      isInstrLine raw = true → (parsedLine raw).isSome = true)
    (hlab : isLabelLine labLine = true)
    (hrefI : isInstrLine refLine = true)
    (hrefP : parseInstr (normalizeLine refLine) = Except.ok i)
    (hshape : i = ⟨"GOTO", [labelOf labLine]⟩ ∨
      ∃ R, i = ⟨"DECJZ", [R, labelOf labLine]⟩) :
    (load_program vm source).2 = none ∧
    alookup (load_program vm source).1.labels (labelOf labLine) =
      some (instrCount (A ++ refLine :: B1)) ∧
    (load_program vm source).1.program.get? (instrCount A) = some i ∧
    (i = ⟨"GOTO", [labelOf labLine]⟩ →
      step { (load_program vm source).1 with pc := instrCount A } =
        ({ (load_program vm source).1 with
           steps := 1, pc := instrCount (A ++ refLine :: B1) }, none)) ∧
    (∀ R, i = ⟨"DECJZ", [R, labelOf labLine]⟩ →
      dget vm.registers (regname R) = 0 →
      step { (load_program vm source).1 with pc := instrCount A } =
        ({ (load_program vm source).1 with
           steps := 1, pc := instrCount (A ++ refLine :: B1) }, none)) := by
  have hassoc : A ++ refLine :: (B1 ++ labLine :: B2) =
      (A ++ refLine :: B1) ++ labLine :: B2 := by
    simp
  have hload := load_program_ok vm source _ hsplit hnm hnodup hparse
  have hmemL : ¬labelOf labLine ∈ labelNames (A ++ refLine :: B1) := by
    intro hmem
    rw [hassoc, labelNames_append, labelNames_cons_label _ _ hlab] at hnodup
    rcases List.nodup_append.mp hnodup with ⟨-, -, hdisj⟩
    exact hdisj hmem (List.mem_cons_self _ _)
  have hlook : alookup (labelSpecs 0 (A ++ refLine :: (B1 ++ labLine :: B2)))
      (labelOf labLine) = some (instrCount (A ++ refLine :: B1)) := by
    rw [hassoc, labelSpecs_append, labelSpecs_cons_label _ _ _ hlab, alookup_append,
      alookup_eq_none_of_not_mem _ _ (by rw [labelSpecs_keys]; exact hmemL)]
    simp [alookup]
  have hpl : parsedLine refLine = some i := by
    unfold parsedLine
    rw [if_pos hrefI, hrefP]
    rfl
  have hlenA : (parsedList A).length = instrCount A :=
    parsedList_length A (fun raw hr hi => hparse raw (by simp [hr]) hi)
  have hgetp : (parsedList (A ++ refLine :: (B1 ++ labLine :: B2))).get?
      (instrCount A) = some i := by
    rw [parsedList_append, ← hlenA, get?_append_len, parsedList_cons_some _ _ _ hpl]
    rfl
  refine ⟨by rw [hload], by rw [hload]; exact hlook, by rw [hload]; exact hgetp, ?_, ?_⟩
  · intro hiG
    rw [hload]
    rw [hiG] at hgetp
    exact step_goto _ (labelOf labLine) (instrCount (A ++ refLine :: B1)) rfl hgetp hlook
  · intro R hiD hr
    rw [hload]
    rw [hiD] at hgetp
    exact step_decjz_zero _ R (labelOf labLine) (instrCount (A ++ refLine :: B1)) rfl
      hgetp hr hlook

/-- Witness for C3: in `GOTO end / INC TIME / end: / HALT` the target
`end` is defined two lines after the referencing `GOTO`; the load succeeds,
`end` resolves to instruction index 2 (the `HALT` slot), and executing the
`GOTO` sets the program counter to 2. -/
theorem c3_witness :
    (load_program initVM "GOTO end\nINC TIME\nend:\nHALT").2 = none ∧
    alookup (load_program initVM "GOTO end\nINC TIME\nend:\nHALT").1.labels "end" = some 2 ∧
    (load_program initVM "GOTO end\nINC TIME\nend:\nHALT").1.program.get? 0 =
      some ⟨"GOTO", ["end"]⟩ ∧
    step { (load_program initVM "GOTO end\nINC TIME\nend:\nHALT").1 with pc := 0 } =
      ({ (load_program initVM "GOTO end\nINC TIME\nend:\nHALT").1 with
         steps := 1, pc := 2 }, none) := by
  have h := c3_forward_references initVM "GOTO end\nINC TIME\nend:\nHALT"
    [] ["INC TIME"] ["HALT"] "GOTO end" "end:" ⟨"GOTO", ["end"]⟩
    (by decide) (by decide) (by decide) (by decide) (by decide) (by decide) (by rfl)
    (Or.inl rfl)
  exact ⟨h.1, h.2.1, h.2.2.1, h.2.2.2.1 rfl⟩

/- Trajectory lemmas for the run loop. -/

theorem stepN_one_err (vm : VM) : (stepN vm 1).2 = (step vm).2 := by
  rcases hst : step vm with ⟨v, e⟩
  cases e <;> simp [stepN, hst]

theorem stepN_succ (vm : VM) (n : Nat) (h : (step vm).2 = none) :
    stepN vm (n + 1) = stepN (step vm).1 n := by
  rcases hst : step vm with ⟨v, e⟩
  rw [hst] at h
  cases e with
  | none => simp [stepN, hst]
  | some e2 => exact absurd h (by simp)

/-- A machine that keeps stepping without error and without halting for the
whole budget makes `run` raise the step-limit error at the state reached
after exactly `n` more executed steps, whose step counter then reads `B`. -/
theorem run_budget (n : Nat) : ∀ (vm : VM) (B : Nat), vm.steps + n = B →
    (∀ k, k ≤ n → (stepN vm k).2 = none ∧ (stepN vm k).1.halted = false) →
    run vm B = ((stepN vm n).1, some stepLimitMsg) ∧ (stepN vm n).1.steps = B := by
  induction n with
  | zero =>
    intro vm B hB H
    have h0 : vm.halted = false := (H 0 (Nat.le_refl 0)).2
    have hB0 : B ≤ vm.steps := by omega
    constructor
    · unfold run
      simp [h0, hB0, stepN]
    · simpa [stepN] using hB
  | succ n ih =>
    intro vm B hB H
    have h0 : vm.halted = false := (H 0 (by omega)).2
    have h1 := H 1 (by omega)
    have he : (step vm).2 = none := by
      rw [← stepN_one_err]
      exact h1.1
    have hs1 : stepN vm 1 = ((step vm).1, none) := by
      rw [stepN_succ vm 0 he]
      rfl
    have hhalt1 : (step vm).1.halted = false := by
      have := h1.2
      rw [hs1] at this
      exact this
    have hsteps : (step vm).1.steps = vm.steps + 1 := by
      rcases step_progress vm h0 he with hh | ⟨hh, _⟩
      · exact hh
      · rw [hh] at hhalt1
        exact absurd hhalt1 (by simp)
    have hlt : ¬B ≤ vm.steps := by omega
    have hrec : run vm B = run (step vm).1 B := by
      conv_lhs => unfold run
      rcases hst : step vm with ⟨v, e⟩
      rw [hst] at he
      simp only at he
      subst he
      simp [h0, hlt, hst]
    have hnext : ∀ k, k ≤ n → (stepN (step vm).1 k).2 = none ∧
        (stepN (step vm).1 k).1.halted = false := by
      intro k hk
      rw [← stepN_succ vm k he]
      exact H (k + 1) (by omega)
    have hres := ih (step vm).1 B (by omega) hnext
    rw [hrec, stepN_succ vm n he]
    exact hres

/-- C5: for a machine at step counter 0 whose trajectory raises no error
and is never halted within the first `B` single steps, `run` with budget
`B` fails with the step-limit error, and the machine state at the moment of
failure has its step counter equal to `B`. -/
theorem c5_step_budget (vm : VM) (B : Nat) (h0 : vm.steps = 0)
    (H : ∀ k, k ≤ B → (stepN vm k).2 = none ∧ (stepN vm k).1.halted = false) :
    run vm B = ((stepN vm B).1, some stepLimitMsg) ∧ (stepN vm B).1.steps = B :=
  run_budget B vm B (by omega) H

/-- A loaded machine that loops forever: `loop: GOTO loop`. -/
def loopVM : VM :=
  (load_program initVM "loop:\nGOTO loop").1

/-- Witness for C5: the one-instruction infinite loop with budget 2 raises
the step-limit error with the step counter at 2. -/
theorem c5_witness :
    run loopVM 2 = ((stepN loopVM 2).1, some stepLimitMsg) ∧ (stepN loopVM 2).1.steps = 2 :=
  c5_step_budget loopVM 2 rfl (by decide)

end MicrowaveVM
